import Mathlib

/-!
Shallow embedding of the gradient-text span engine
(`gradient_text/gradient.py`, `gradient_text/_gradient_substring.py`,
`gradient_text/color_list.py`) and proofs about its specified properties.

Modelling conventions:
* A `Color` is its `rgb_tuple` — an RGB triple of natural numbers.  The
  `Color` class itself lives in `color.py`, which is an external collaborator
  (only the `rgb_tuple` / `hex` surface is used by the span engine).
* A rich `Style` is external.  A span's style is modelled as the pair of the
  interpolated hex-color token and the (opaque) base style it is composed
  with; two such composites are equal iff both components are equal, which
  mirrors rich's attribute-wise `Style` equality for the styles this engine
  builds.
* Python's float arithmetic in `blend = index / substring_length` and
  `int(r1 + dr * blend)` is idealised as exact rational arithmetic;
  `int()` truncates toward zero, so for the nonnegative values arising here
  it is the floor.  The exact value `r1 + dr * (index / L)` equals
  `(r1 * L + dr * index) / L`, whose truncation toward zero is the integer
  T-division `Int.tdiv`.
* Fallible steps (`IndexError`, `ZeroDivisionError`, numpy errors, the
  `UnboundLocalError` of `simplify_spans` on an empty list, failed `assert`
  statements) are modelled with `Option` / `Except`.
-/

namespace GradientText

/-- Decidable equality for `Except`, used to evaluate construction
    outcomes on concrete inputs. -/
def exceptDecEq {ε α : Type} [DecidableEq ε] [DecidableEq α] :
    (a b : Except ε α) → Decidable (a = b)
  | .error x, .error y =>
    match decEq x y with
    | .isTrue h => .isTrue (by rw [h])
    | .isFalse h => .isFalse fun hc => h (by cases hc; rfl)
  | .error _, .ok _ => .isFalse fun hc => Except.noConfusion hc
  | .ok _, .error _ => .isFalse fun hc => Except.noConfusion hc
  | .ok x, .ok y =>
    match decEq x y with
    | .isTrue h => .isTrue (by rw [h])
    | .isFalse h => .isFalse fun hc => h (by cases hc; rfl)

instance {ε α : Type} [DecidableEq ε] [DecidableEq α] : DecidableEq (Except ε α) :=
  exceptDecEq

/-- External `Color` abstraction: an 8-bit RGB triple, `color.rgb_tuple`
    in the source (`color.py` is not part of the span engine sources). -/
structure Color where
  r : Nat
  g : Nat
  b : Nat
deriving DecidableEq, Repr

/-- Style attached to a synthesized span: the interpolated color token
    composed with the gradient's base style (`Style(color=hex_color) + self.style`
    in `Gradient._substring_spans`, `self.style + color_style` in
    `GradientSubstring._calculate_span`).  rich `Style` equality is
    attribute-wise, which for these composites is componentwise equality. -/
structure SpanStyle (σ : Type) where
  color : String
  base : σ
deriving DecidableEq, Repr

/-- rich `Span`: a half-open character range `[start, stop)` with a style.
    (`end` is a reserved word in Lean, hence `stop`.) -/
structure Span (σ : Type) where
  start : Int
  stop : Int
  style : σ
deriving DecidableEq, Repr

/-- Hexadecimal digit character, uppercase, as produced by Python's `"X"`
    format code: `0`–`9` then `A`–`F`. -/
def hexChar (n : Nat) : Char :=
  if n < 10 then Char.ofNat (48 + n) else Char.ofNat (55 + n)

/-- Uppercase hexadecimal digit list, structurally recursive on a fuel
    argument (`n` has at most `n + 1` digits) so that it reduces in the
    kernel. -/
def hexDigitsAux : Nat → Nat → List Char
  | 0, _ => []
  | fuel + 1, n =>
    if n < 16 then [hexChar n]
    else hexDigitsAux fuel (n / 16) ++ [hexChar (n % 16)]

/-- Uppercase hexadecimal digit list of a natural number (no padding). -/
def hexDigits (n : Nat) : List Char :=
  hexDigitsAux (n + 1) n

/-- Left-pad a digit list with `'0'` up to `width`. -/
def padZero (width : Nat) (ds : List Char) : List Char :=
  List.replicate (width - ds.length) '0' ++ ds

/-- Python's `f"{v:02X}"`: uppercase hex, zero-padded to a minimum total
    width of 2 (the sign counts toward the width for negative values). -/
def format02X (v : Int) : String :=
  if v < 0 then String.mk ('-' :: padZero 1 (hexDigits v.natAbs))
  else String.mk (padZero 2 (hexDigits v.toNat))

/-- One interpolated channel: the exact value of
    `int(base + delta * (index / L))` from the source
    (`Gradient._substring_spans` line 188-191, `Gradient._gradient_spans`
    line 327-330, `GradientSubstring._calculate_span` line 194-204).
    The exact rational value is `(base * L + delta * index) / L` and
    Python's `int()` truncates toward zero, which for a fraction with
    positive denominator is `Int.tdiv`.  (`L = 0` never reaches this
    computation in the source; the inner loops are empty then.) -/
def blend_channel (base delta : Int) (index L : Nat) : Int :=
  (base * L + delta * index).tdiv L

/-- Channel interpolation between two 8-bit channel values `a → b`
    at blend position `index / L`. -/
def channel (a b : Nat) (index L : Nat) : Int :=
  blend_channel (a : Int) ((b : Int) - (a : Int)) index L

/-- The per-pair interpolation state set up before each inner loop:
    `r1, g1, b1` and the deltas `dr, dg, db`. -/
structure Params where
  r1 : Int
  g1 : Int
  b1 : Int
  dr : Int
  dg : Int
  db : Int
deriving DecidableEq, Repr

/-- `r1, g1, b1 = color1.rgb_tuple; dr = r2 - r1; ...` -/
def mkParams (c1 c2 : Color) : Params :=
  ⟨c1.r, c1.g, c1.b,
   (c2.r : Int) - (c1.r : Int), (c2.g : Int) - (c1.g : Int), (c2.b : Int) - (c1.b : Int)⟩

/-- `hex_color = f"#{red}{green}{blue}"` for blend position `index / L`. -/
def hex_color (p : Params) (L index : Nat) : String :=
  "#" ++ format02X (blend_channel p.r1 p.dr index L)
      ++ format02X (blend_channel p.g1 p.dg index L)
      ++ format02X (blend_channel p.b1 p.db index L)

/-- The `#RRGGBB` token of a color's own channels (the external
    `Color.hex`, normalised like rich normalises color tokens). -/
def hexOfColor (c : Color) : String :=
  "#" ++ format02X (c.r : Int) ++ format02X (c.g : Int) ++ format02X (c.b : Int)

/-! ## The partitioner: numpy `array_split(arange(length), sections)` -/

/-- Start offset of numpy `array_split` section `i`:  with
    `l = N / k` and `r = N % k`, the first `r` sections have size `l + 1`
    and the rest size `l`, so section `i` starts at `i * l + min i r`. -/
def chunk_start (N k i : Nat) : Nat :=
  i * (N / k) + min i (N % k)

/-- Size of numpy `array_split` section `i`. -/
def chunk_size (N k i : Nat) : Nat :=
  N / k + if i < N % k then 1 else 0

/-- numpy `array_split(arange(N), k)` as a list of index lists.
    (numpy raises for `k = 0`; this function is only applied with `k ≥ 1`,
    the `k = 0` value `[]` is junk.) -/
def array_split (N k : Nat) : List (List Nat) :=
  (List.range k).map fun i =>
    (List.range (chunk_size N k i)).map fun j => chunk_start N k i + j

/-- `Gradient._substring_indexes`: split `arange(length)` into
    `self.hues - 1` sections. -/
def substring_indexes (length hues : Nat) : List (List Nat) :=
  array_split length (hues - 1)

/-! ## The span synthesizer: `Gradient._substring_spans` -/

/-- The inner loop of `Gradient._substring_spans`: one unit-width span per
    character of one substring, styled with the interpolated color at
    `blend = index / substring_length` composed with the base style. -/
def chunk_spans (p : Params) (base : σ) (chunk : List Nat) : List (Span (SpanStyle σ)) :=
  (List.range chunk.length).map fun index =>
    { start := (chunk.getD index 0 : Int)
      stop := (chunk.getD index 0 : Int) + 1
      style := ⟨hex_color p chunk.length index, base⟩ }

/-- The outer loop of `Gradient._substring_spans`.  `mi` is `main_index`;
    `prev` carries the interpolation variables left over from the previous
    iteration (they are only reassigned under `if main_index < self.hues`).
    `none` results model the source's `IndexError` (color lookup out of
    range) and `NameError` (loop body entered with the guard false before
    any assignment). -/
def substring_spans_go (colors : List Color) (hues : Nat) (base : σ) :
    Nat → Option Params → List (List Nat) → Option (List (Span (SpanStyle σ)))
  | _, _, [] => some []
  | mi, prev, chunk :: rest =>
    let pOpt : Option Params :=
      if mi < hues then
        match colors[mi]?, colors[mi + 1]? with
        | some c1, some c2 => some (mkParams c1 c2)
        | _, _ => none
      else prev
    match pOpt with
    | none => none
    | some p =>
      (substring_spans_go colors hues base (mi + 1) (some p) rest).map
        (chunk_spans p base chunk ++ ·)

/-- `Gradient._substring_spans(indexes)`. -/
def substring_spans (colors : List Color) (hues : Nat) (base : σ)
    (indexes : List (List Nat)) : Option (List (Span (SpanStyle σ))) :=
  substring_spans_go colors hues base 0 none indexes

/-- The spans of the chunk paired with the adjacent color pair
    `(colors[mi], colors[mi+1])` — the shape every successfully processed
    chunk of `Gradient._substring_spans` takes. -/
def pair_spans (colors : List Color) (base : σ) (mi : Nat) (chunk : List Nat) :
    List (Span (SpanStyle σ)) :=
  chunk_spans (mkParams (colors.getD mi ⟨0, 0, 0⟩) (colors.getD (mi + 1) ⟨0, 0, 0⟩)) base chunk

/-! ## The span compressor: `simplify_spans` -/

/-- Loop of `Gradient.simplify_spans` / `GradientSubstring.simplify_spans`
    after `last_span` has been initialised with the first span: merge each
    following span into `last_span` when the styles are equal (keeping
    `last_span.start`, taking the new span's end), otherwise emit
    `last_span` and restart from the new span; emit the final `last_span`. -/
def simplifyAux [DecidableEq σ] (last : Span σ) : List (Span σ) → List (Span σ)
  | [] => [last]
  | s :: rest =>
    if s.style = last.style then
      simplifyAux ⟨last.start, s.stop, s.style⟩ rest
    else
      last :: simplifyAux s rest

/-- `simplify_spans(spans)`.  On an empty input the source raises
    `UnboundLocalError` (`last_span` is never assigned before the final
    `append`), modelled as `none`. -/
def simplify_spans [DecidableEq σ] : List (Span σ) → Option (List (Span σ))
  | [] => none
  | s :: rest => some (simplifyAux s rest)

/-! ## Construction: `Gradient.__init__` -/

/-- The distinct ways `Gradient.__init__` can fail before producing spans. -/
inductive InitError where
  /-- `colors` passed as an empty list: falsy, not `None` →
      `raise ValueError("Colors must be a list of colors.")`. -/
  | colorsEmptyList
  /-- `assert len(self._colors) > 1` fails
      (message `"Gradient must have at least two colors."`). -/
  | tooFewColors
  /-- `assert len(self._colors) < self._length` fails
      (message `"Gradient must have fewer colors than characters."`). -/
  | colorsNotFewerThanText
  /-- numpy `array_split` with `sections = hues - 1 ≤ 0` raises `ValueError`. -/
  | sectionsError
  /-- `IndexError` / `NameError` while generating substring spans. -/
  | spanIndexError
  /-- `UnboundLocalError` in `simplify_spans` on an empty span list. -/
  | emptySpansError
deriving DecidableEq, Repr

/-- The fully constructed object: sanitized-text length, hue count, parsed
    anchor colors, base style and the compressed spans assigned to
    `self._spans`. -/
structure Gradient (σ : Type) where
  length : Nat
  hues : Nat
  colors : List Color
  style : σ
  spans : List (Span (SpanStyle σ))
deriving DecidableEq, Repr

/-- `Gradient.__init__` after the colors have been resolved: the two
    `assert` statements, then `_substring_indexes` (numpy raises for
    `sections ≤ 0`), `_substring_spans`, `simplify_spans`, in source order. -/
def gradient_init_core [DecidableEq σ] (length hues : Nat) (colors : List Color)
    (base : σ) : Except InitError (Gradient σ) :=
  if colors.length > 1 then
    if colors.length < length then
      if hues - 1 = 0 then .error .sectionsError
      else
        match substring_spans colors hues base (substring_indexes length hues) with
        | none => .error .spanIndexError
        | some pre =>
          match simplify_spans pre with
          | none => .error .emptySpansError
          | some simplified => .ok ⟨length, hues, colors, base, simplified⟩
    else .error .colorsNotFewerThanText
  else .error .tooFewColors

/-- `Gradient.__init__`.  `length` is the length of the control-code-stripped
    text (rich's `Text.__init__` assigns `self._text` directly, so the
    overridden `text` setter — and its empty-text `ValueError` — is never
    invoked during construction).  `colorsArg = some cs` models an explicit
    (already parsed) color list, `none` models `colors=None`, in which case
    the anchors come from `ColorList(invert).color_list[0:hues]`, supplied
    here as `palette` (its contents depend on `randint` and the external
    color parser).  `rainbow=True` overrides `hues` with 10. -/
def gradient_init [DecidableEq σ] (length : Nat) (colorsArg : Option (List Color))
    (rainbow : Bool) (hues0 : Nat) (base : σ) (palette : List Color) :
    Except InitError (Gradient σ) :=
  let hues := if rainbow then 10 else hues0
  match colorsArg with
  | some [] => .error .colorsEmptyList
  | some cs => gradient_init_core length hues cs base
  | none => gradient_init_core length hues (palette.take hues) base

/-- The fixed 10-name palette of `ColorList` and its rotation logic
    (`start_index` is `randint(0, 9)`); the external color parser is
    abstracted as `parse`. -/
def color_list (parse : String → Color) (start_index : Nat) (invert : Bool) :
    List Color :=
  (List.range 10).map fun index =>
    let step : Int := if invert then -1 else 1
    let current : Int := (start_index : Int) + (index : Int) * step
    let current := if current > 9 then current - 10 else current
    let current := if current < 0 then current + 10 else current
    parse (["magenta", "violet", "purple", "blue", "lightblue",
            "cyan", "lime", "yellow", "orange", "red"].getD current.toNat "")

/-! ## The duplicate single-loop variant: `Gradient._gradient_spans` -/

/-- One iteration of `Gradient._gradient_spans`' outer loop: spans for the
    uniform-size chunk `[i * gradient_size, (i+1) * gradient_size)` from the
    color pair `(colors[i], colors[i+1])`.  The source appends
    `Span[full_index, full_index + 1, style]` — a class subscription (a slip
    for `Span(...)`) whose payload is exactly that triple; it is modelled as
    the span record with those components. -/
def gradient_chunk (colors : List Color) (base : σ) (gradient_size i : Nat) :
    Option (List (Span (SpanStyle σ))) :=
  match colors[i]?, colors[i + 1]? with
  | some c1, some c2 =>
    some ((List.range gradient_size).map fun j =>
      { start := (i * gradient_size + j : Nat)
        stop := (i * gradient_size + j : Nat) + 1
        style := ⟨hex_color (mkParams c1 c2) gradient_size j, base⟩ })
  | _, _ => none

/-- `Gradient._gradient_spans()`: `gradients = hues - 1`,
    `gradient_size = length // gradients` (`ZeroDivisionError` when
    `gradients = 0`), then the uniform chunks above.  The
    `if i == gradients: end = length` branch of the source is dead code
    (`i` ranges over `range(gradients)`), so the trailing
    `length % gradients` characters are never covered. -/
def gradient_spans (length hues : Nat) (colors : List Color) (base : σ) :
    Option (List (Span (SpanStyle σ))) :=
  let gradients := hues - 1
  if gradients = 0 then none
  else
    ((List.range gradients).mapM (gradient_chunk colors base (length / gradients))).map
      List.flatten

/-! ## `GradientSubstring` -/

/-- `GradientSubstring._calculate_span(index)`: one unit-width span at
    global position `start_index + index`, blend `index / self._length`. -/
def calculate_span (start_index : Int) (length : Nat) (c1 c2 : Color) (base : σ)
    (index : Nat) : Span (SpanStyle σ) :=
  { start := start_index + index
    stop := start_index + index + 1
    style := ⟨hex_color (mkParams c1 c2) length index, base⟩ }

/-- The shapes of the `style` argument that the `end_style` computation of
    `GradientSubstring.__init__` (the branch at lines 76-89) distinguishes. -/
inductive StyleArg where
  /-- `style` falsy (`None` or the empty string): `self.style = Style.null()`
      and `end_style = Style(color=self.color_end.hex)`. -/
  | falsy
  /-- the literal string `"none"`: `self.style = Style.null()` and
      `end_style` keeps its `Style.null()` initialisation — it carries no
      color. -/
  | noneLiteral
  /-- any other string: `self.style = self.parse_style(style)` and
      `end_style = Style.parse(f"{self.style} {self.color_end.hex}")`. -/
  | otherString
  /-- a `Style` instance: `self.style = style` and
      `end_style = Style.parse(f"{self.style} {self.color_end.hex}")`. -/
  | styleObject
deriving DecidableEq, Repr

/-- `end_style` of `GradientSubstring.__init__`: the end color's hex token
    over the base style in three of the four branches; in the `"none"`
    branch it keeps its colorless `Style.null()` initialisation
    (`self.style` is the null style in that branch, so `base` is its
    abstraction there).  Absence of a color token is modelled by the empty
    token, which no interpolated `#RRGGBB` token equals. -/
def substring_end_style (arg : StyleArg) (c2 : Color) (base : σ) : SpanStyle σ :=
  match arg with
  | .falsy => ⟨hexOfColor c2, base⟩
  | .noneLiteral => ⟨"", base⟩
  | .otherString => ⟨hexOfColor c2, base⟩
  | .styleObject => ⟨hexOfColor c2, base⟩

/-- The list handed to `simplify_spans` in `GradientSubstring.__init__`:
    `initial_spans = [Span(0, self._length - 1, end_style)]` extended with
    the per-character spans for `range(self._length)` (`executor.map`
    preserves input order). -/
def substring_initial_spans (arg : StyleArg) (start_index : Int) (length : Nat)
    (c1 c2 : Color) (base : σ) : List (Span (SpanStyle σ)) :=
  ⟨0, (length : Int) - 1, substring_end_style arg c2 base⟩ ::
    (List.range length).map (calculate_span start_index length c1 c2 base)

/-- The compressed spans assigned to `self._spans` by
    `GradientSubstring.__init__`. -/
def gradient_substring_spans [DecidableEq σ] (arg : StyleArg) (start_index : Int)
    (length : Nat) (c1 c2 : Color) (base : σ) : Option (List (Span (SpanStyle σ))) :=
  simplify_spans (substring_initial_spans arg start_index length c1 c2 base)

/-! ## Specification predicates -/

/-- `tilesB lo hi spans`: the spans are nonempty, consecutive (each starts
    where the previous one stopped) and exactly cover `[lo, hi)` — the
    spec's "contiguous, no gaps, no overlaps" for an ordered span list. -/
def tilesB (lo hi : Int) : List (Span σ) → Bool
  | [] => lo == hi
  | s :: rest => (s.start == lo) && (lo < s.stop) && tilesB s.stop hi rest

/-- No two adjacent spans carry an equal style (the spec's maximality). -/
def adjacentDistinct [DecidableEq σ] : List (Span σ) → Bool
  | a :: b :: rest => (a.style != b.style) && adjacentDistinct (b :: rest)
  | _ => true

/-! ## Lemmas about the span compressor -/

lemma simplifyAux_head [DecidableEq σ] (xs : List (Span σ)) (last : Span σ) :
    ∃ h t, simplifyAux last xs = h :: t ∧ h.start = last.start ∧ h.style = last.style ∧
      (h.stop = last.stop ∨ ∃ u ∈ xs, h.stop = u.stop) := by
  induction xs generalizing last with
  | nil => exact ⟨last, [], rfl, rfl, rfl, .inl rfl⟩
  | cons s rest ih =>
    simp only [simplifyAux]
    split
    · next heq =>
      obtain ⟨h, t, he, hs, hst, hstop⟩ := ih ⟨last.start, s.stop, s.style⟩
      refine ⟨h, t, he, hs, by rw [hst]; exact heq, ?_⟩
      rcases hstop with h1 | ⟨u, hu, he2⟩
      · exact .inr ⟨s, by simp, h1⟩
      · exact .inr ⟨u, by simp [hu], he2⟩
    · exact ⟨last, _, rfl, rfl, rfl, .inl rfl⟩

lemma simplifyAux_tiles [DecidableEq σ] (xs : List (Span σ)) (last : Span σ) (lo hi : Int)
    (h : tilesB lo hi (last :: xs) = true) :
    tilesB lo hi (simplifyAux last xs) = true := by
  induction xs generalizing last lo with
  | nil => simpa [simplifyAux] using h
  | cons s rest ih =>
    simp only [tilesB, Bool.and_eq_true, beq_iff_eq, decide_eq_true_eq] at h
    obtain ⟨⟨hstart, hlt⟩, ⟨hstart2, hlt2⟩, hrest⟩ := h
    simp only [simplifyAux]
    split
    · exact ih ⟨last.start, s.stop, s.style⟩ lo (by
        simp only [tilesB, Bool.and_eq_true, beq_iff_eq, decide_eq_true_eq]
        exact ⟨⟨hstart, by omega⟩, hrest⟩)
    · simp only [tilesB, Bool.and_eq_true, beq_iff_eq, decide_eq_true_eq]
      exact ⟨⟨hstart, hlt⟩, ih s last.stop (by
        simp only [tilesB, Bool.and_eq_true, beq_iff_eq, decide_eq_true_eq]
        exact ⟨⟨hstart2, hlt2⟩, hrest⟩)⟩

lemma simplifyAux_adjacentDistinct [DecidableEq σ] (xs : List (Span σ)) (last : Span σ) :
    adjacentDistinct (simplifyAux last xs) = true := by
  induction xs generalizing last with
  | nil => simp [simplifyAux, adjacentDistinct]
  | cons s rest ih =>
    simp only [simplifyAux]
    split
    · exact ih ⟨last.start, s.stop, s.style⟩
    · next hne =>
      obtain ⟨h, t, he, _, hstyle, _⟩ := simplifyAux_head rest s
      rw [he]
      simp only [adjacentDistinct, Bool.and_eq_true, bne_iff_ne]
      exact ⟨by rw [hstyle]; exact fun hc => hne hc.symm, by rw [← he]; exact ih s⟩

lemma simplifyAux_of_adjacentDistinct [DecidableEq σ] (xs : List (Span σ)) (last : Span σ)
    (h : adjacentDistinct (last :: xs) = true) :
    simplifyAux last xs = last :: xs := by
  induction xs generalizing last with
  | nil => rfl
  | cons s rest ih =>
    simp only [adjacentDistinct, Bool.and_eq_true, bne_iff_ne] at h
    simp only [simplifyAux]
    rw [if_neg fun hc => h.1 hc.symm, ih s (by
      simpa only [adjacentDistinct, Bool.and_eq_true, bne_iff_ne] using h.2)]

/-- Claim C4: for every non-empty span list, `simplify_spans` is idempotent,
and if no two adjacent input spans have equal style then the output equals
the input. -/
theorem simplify_spans_idempotent [DecidableEq σ] (spans out : List (Span σ))
    (h : simplify_spans spans = some out) :
    simplify_spans out = some out ∧
      (adjacentDistinct spans = true → out = spans) := by
  match spans, h with
  | s :: rest, h =>
    simp only [simplify_spans, Option.some.injEq] at h
    subst h
    constructor
    · obtain ⟨h0, t, he, _, _, _⟩ := simplifyAux_head rest s
      have had : adjacentDistinct (h0 :: t) = true := by
        rw [← he]; exact simplifyAux_adjacentDistinct rest s
      rw [he]
      simp only [simplify_spans, Option.some.injEq]
      exact simplifyAux_of_adjacentDistinct t h0 had
    · exact fun hd => simplifyAux_of_adjacentDistinct rest s hd

/-! ## Lemmas about the partitioner -/

lemma chunk_start_succ (N k i : Nat) :
    chunk_start N k (i + 1) = chunk_start N k i + chunk_size N k i := by
  simp only [chunk_start, chunk_size, Nat.succ_mul]
  split <;> omega

lemma chunk_start_self (N k : Nat) (hk : 1 ≤ k) : chunk_start N k k = N := by
  have hmod : N % k < k := Nat.mod_lt _ (by omega)
  have hdm := Nat.div_add_mod N k
  simp only [chunk_start, Nat.min_def]
  split <;> omega

lemma array_split_chunk (N k i : Nat) (hi : i < k) :
    (array_split N k).getD i [] = List.range' (chunk_start N k i) (chunk_size N k i) := by
  have hlen : i < (array_split N k).length := by simpa [array_split] using hi
  rw [List.getD_eq_getElem _ _ hlen]
  simp only [array_split, List.getElem_map, List.getElem_range]
  rw [List.range'_eq_map_range]

lemma array_split_length (N k : Nat) : (array_split N k).length = k := by
  simp [array_split]

lemma array_split_flatten (N k : Nat) (hk : 1 ≤ k) :
    (array_split N k).flatten = List.range N := by
  have key : ∀ j, j ≤ k →
      (List.flatten ((List.range j).map fun i =>
        (List.range (chunk_size N k i)).map fun m => chunk_start N k i + m)) =
      List.range' 0 (chunk_start N k j) := by
    intro j
    induction j with
    | zero => simp [chunk_start]
    | succ j ih =>
      intro hj
      rw [List.range_succ, List.map_append, List.flatten_append, ih (by omega)]
      simp only [List.map_cons, List.map_nil, List.flatten_cons, List.flatten_nil,
        List.append_nil]
      rw [← List.range'_eq_map_range]
      have := List.range'_append 0 (chunk_start N k j) (chunk_size N k j) 1
      simp only [Nat.one_mul, Nat.zero_add] at this
      rw [this, chunk_start_succ, Nat.add_comm]
  rw [array_split, key k (le_refl k), chunk_start_self N k hk, List.range_eq_range']

lemma chunk_size_le (N k i : Nat) :
    chunk_size N k i = N / k ∨ chunk_size N k i = N / k + 1 := by
  simp only [chunk_size]
  split <;> omega

lemma chunk_size_antitone (N k i j : Nat) (hij : i ≤ j) :
    chunk_size N k j ≤ chunk_size N k i := by
  simp only [chunk_size]
  split <;> split <;> omega

lemma chunk_size_pos (N k i : Nat) (hk : 1 ≤ k) (hN : k ≤ N) :
    1 ≤ chunk_size N k i := by
  have := Nat.div_pos hN (by omega)
  simp only [chunk_size]
  split <;> omega

/-! ## Lemmas about the span synthesizer -/

lemma chunk_spans_length (p : Params) (base : σ) (chunk : List Nat) :
    (chunk_spans p base chunk).length = chunk.length := by
  simp [chunk_spans]

lemma chunk_spans_starts (p : Params) (base : σ) (chunk : List Nat) :
    (chunk_spans p base chunk).map Span.start = chunk.map (fun k : Nat => (k : Int)) := by
  apply List.ext_getElem
  · simp [chunk_spans]
  · intro n h1 h2
    simp only [chunk_spans, List.getElem_map, List.getElem_range]
    rw [List.getD_eq_getElem _ _ (by simpa [chunk_spans] using h2)]

lemma chunk_spans_units (p : Params) (base : σ) (chunk : List Nat) :
    ∀ s ∈ chunk_spans p base chunk, s.stop = s.start + 1 := by
  intro s hs
  simp only [chunk_spans, List.mem_map, List.mem_range] at hs
  obtain ⟨i, _, rfl⟩ := hs
  rfl

lemma substring_spans_go_starts (colors : List Color) (hues : Nat) (base : σ) :
    ∀ (chunks : List (List Nat)) (mi : Nat) (prev : Option Params)
      (r : List (Span (SpanStyle σ))),
      substring_spans_go colors hues base mi prev chunks = some r →
      r.map Span.start = chunks.flatten.map (fun k : Nat => (k : Int)) ∧
        ∀ s ∈ r, s.stop = s.start + 1 := by
  intro chunks
  induction chunks with
  | nil =>
    intro mi prev r h
    simp only [substring_spans_go, Option.some.injEq] at h
    subst h
    simp
  | cons c rest ih =>
    intro mi prev r h
    simp only [substring_spans_go] at h
    set pOpt := if mi < hues then
        match colors[mi]?, colors[mi + 1]? with
        | some c1, some c2 => some (mkParams c1 c2)
        | _, _ => none
      else prev with hp
    clear_value pOpt
    match pOpt, h with
    | some p, h =>
      simp only [Option.map_eq_some'] at h
      obtain ⟨r', hr', rfl⟩ := h
      obtain ⟨hstarts, hunits⟩ := ih (mi + 1) (some p) r' hr'
      constructor
      · rw [List.map_append, chunk_spans_starts, hstarts, List.flatten_cons,
          List.map_append]
      · intro s hs
        rcases List.mem_append.mp hs with h1 | h2
        · exact chunk_spans_units p base c s h1
        · exact hunits s h2

lemma tilesB_of_starts_units (spans : List (Span σ)) :
    ∀ (a n : Nat),
      (∀ s ∈ spans, s.stop = s.start + 1) →
      spans.map Span.start = (List.range' a n).map (fun k : Nat => (k : Int)) →
      tilesB (a : Int) ((a : Int) + (n : Int)) spans = true := by
  induction spans with
  | nil =>
    intro a n _ hs
    have : n = 0 := by
      have := congrArg List.length hs
      simpa using this.symm
    subst this
    simp [tilesB]
  | cons s rest ih =>
    intro a n hu hs
    match n, hs with
    | m + 1, hs =>
      rw [List.range'_succ] at hs
      simp only [List.map_cons, List.cons.injEq] at hs
      obtain ⟨hstart, hrest⟩ := hs
      have hstop : s.stop = (a : Int) + 1 := by
        rw [hu s (by simp), hstart]
      simp only [tilesB, Bool.and_eq_true, beq_iff_eq, decide_eq_true_eq]
      refine ⟨⟨hstart, by omega⟩, ?_⟩
      have := ih (a + 1) m (fun u hu' => hu u (by simp [hu'])) hrest
      rw [hstop]
      convert this using 2
      push_cast
      ring

lemma substring_spans_go_cons_some {colors : List Color} {hues : Nat} {base : σ}
    {mi : Nat} {prev : Option Params} {c : List Nat} {rest : List (List Nat)}
    {c1 c2 : Color} (hmi : mi < hues)
    (h1 : colors[mi]? = some c1) (h2 : colors[mi + 1]? = some c2) :
    substring_spans_go colors hues base mi prev (c :: rest) =
      (substring_spans_go colors hues base (mi + 1) (some (mkParams c1 c2)) rest).map
        (chunk_spans (mkParams c1 c2) base c ++ ·) := by
  simp only [substring_spans_go, if_pos hmi, h1, h2]

lemma substring_spans_go_cons_none1 {colors : List Color} {hues : Nat} {base : σ}
    {mi : Nat} {prev : Option Params} {c : List Nat} {rest : List (List Nat)}
    (hmi : mi < hues) (h1 : colors[mi]? = none) :
    substring_spans_go colors hues base mi prev (c :: rest) =
      (none : Option (List (Span (SpanStyle σ)))) := by
  simp only [substring_spans_go, if_pos hmi, h1]

lemma substring_spans_go_cons_none2 {colors : List Color} {hues : Nat} {base : σ}
    {mi : Nat} {prev : Option Params} {c : List Nat} {rest : List (List Nat)}
    {c1 : Color} (hmi : mi < hues)
    (h1 : colors[mi]? = some c1) (h2 : colors[mi + 1]? = none) :
    substring_spans_go colors hues base mi prev (c :: rest) =
      (none : Option (List (Span (SpanStyle σ)))) := by
  simp only [substring_spans_go, if_pos hmi, h1, h2]

lemma substring_spans_go_eval (colors : List Color) (hues : Nat) (base : σ) :
    ∀ (chunks : List (List Nat)) (mi : Nat) (prev : Option Params),
      (∀ j, j < chunks.length → mi + j < hues ∧ mi + j + 1 < colors.length) →
      substring_spans_go colors hues base mi prev chunks =
        some (((List.range chunks.length).map fun j =>
          pair_spans colors base (mi + j) (chunks.getD j [])).flatten) := by
  intro chunks
  induction chunks with
  | nil => intro mi prev _; simp [substring_spans_go]
  | cons c rest ih =>
    intro mi prev hb
    have h0 := hb 0 (by simp)
    have hmi : mi < colors.length := by omega
    have hmi1 : mi + 1 < colors.length := by omega
    rw [substring_spans_go_cons_some (by omega : mi < hues)
        (List.getElem?_eq_getElem hmi) (List.getElem?_eq_getElem hmi1),
      ih (mi + 1) (some (mkParams colors[mi] colors[mi + 1]))
        (fun j hj => by
          have := hb (j + 1) (by simpa using Nat.succ_lt_succ hj)
          omega)]
    simp only [Option.map_some', Option.some.injEq, List.length_cons,
      List.range_succ_eq_map, List.map_cons, List.flatten_cons]
    congr 1
    · simp only [pair_spans, Nat.add_zero, List.getD_cons_zero]
      rw [List.getD_eq_getElem _ _ hmi, List.getD_eq_getElem _ _ hmi1]
    · congr 1
      rw [List.map_map]
      apply List.map_congr_left
      intro j _
      simp only [Function.comp_apply, List.getD_cons_succ, Nat.succ_eq_add_one,
        show ∀ j : Nat, mi + 1 + j = mi + (j + 1) from fun j => by omega]

lemma substring_spans_go_some_lt (colors : List Color) (hues : Nat) (base : σ) :
    ∀ (chunks : List (List Nat)) (mi : Nat) (prev : Option Params)
      (r : List (Span (SpanStyle σ))),
      (∀ j, j < chunks.length → mi + j < hues) →
      substring_spans_go colors hues base mi prev chunks = some r →
      chunks ≠ [] → mi + chunks.length < colors.length := by
  intro chunks
  induction chunks with
  | nil => intro _ _ _ _ _ h; exact absurd rfl h
  | cons c rest ih =>
    intro mi prev r hg h _
    have hmi : mi < hues := by have := hg 0 (by simp); omega
    simp only [substring_spans_go, if_pos hmi] at h
    match h1 : colors[mi]?, h2 : colors[mi + 1]? with
    | some c1, some c2 =>
      rw [h1, h2] at h
      simp only [Option.map_eq_some'] at h
      obtain ⟨r', hr', _⟩ := h
      have hmi1 : mi + 1 < colors.length := by
        have := List.getElem?_eq_some.mp h2
        exact this.1
      rcases rest with _ | ⟨c', rest'⟩
      · simpa using hmi1
      · have := ih (mi + 1) (some (mkParams c1 c2)) r'
          (fun j hj => by have := hg (j + 1) (by simpa using Nat.succ_lt_succ hj); omega)
          hr' (by simp)
        simpa [Nat.add_comm, Nat.add_assoc, Nat.add_left_comm] using this
    | some _, none => rw [h1, h2] at h; simp at h
    | none, _ => rw [h1] at h; simp at h

lemma substring_spans_go_take (colors : List Color) (hues : Nat) (base : σ) :
    ∀ (chunks : List (List Nat)) (mi : Nat) (prev : Option Params),
      (∀ j, j < chunks.length → mi + j + 1 < hues) →
      substring_spans_go (colors.take hues) hues base mi prev chunks =
        substring_spans_go colors hues base mi prev chunks := by
  intro chunks
  induction chunks with
  | nil => intro _ _ _; rfl
  | cons c rest ih =>
    intro mi prev hg
    have h0 := hg 0 (by simp)
    have e1 : (colors.take hues)[mi]? = colors[mi]? := by
      rw [List.getElem?_take]
      exact if_pos (by omega)
    have e2 : (colors.take hues)[mi + 1]? = colors[mi + 1]? := by
      rw [List.getElem?_take]
      exact if_pos (by omega)
    cases hc1 : colors[mi]? with
    | none =>
      rw [substring_spans_go_cons_none1 (by omega : mi < hues) (e1.trans hc1),
        substring_spans_go_cons_none1 (by omega : mi < hues) hc1]
    | some c1 =>
      cases hc2 : colors[mi + 1]? with
      | none =>
        rw [substring_spans_go_cons_none2 (by omega : mi < hues) (e1.trans hc1) (e2.trans hc2),
          substring_spans_go_cons_none2 (by omega : mi < hues) hc1 hc2]
      | some c2 =>
        rw [substring_spans_go_cons_some (by omega : mi < hues) (e1.trans hc1) (e2.trans hc2),
          substring_spans_go_cons_some (by omega : mi < hues) hc1 hc2,
          ih (mi + 1) (some (mkParams c1 c2))
            (fun j hj => by have := hg (j + 1) (by simpa using Nat.succ_lt_succ hj); omega)]

lemma substring_spans_go_short (colors : List Color) (hues : Nat) (base : σ) :
    ∀ (chunks : List (List Nat)) (mi : Nat) (prev : Option Params),
      (∀ j, j < chunks.length → mi + j < hues) →
      (∃ j, j < chunks.length ∧ colors.length ≤ mi + j + 1) →
      substring_spans_go colors hues base mi prev chunks = none := by
  intro chunks
  induction chunks with
  | nil => intro _ _ _ h; obtain ⟨j, hj, _⟩ := h; simp at hj
  | cons c rest ih =>
    intro mi prev hg hex
    have hmi : mi < hues := by have := hg 0 (by simp); omega
    by_cases hcase : colors.length ≤ mi + 1
    · cases hc1 : colors[mi]? with
      | none => exact substring_spans_go_cons_none1 hmi hc1
      | some c1 =>
        exact substring_spans_go_cons_none2 hmi hc1 (List.getElem?_eq_none hcase)
    · obtain ⟨j, hj, hfail⟩ := hex
      have hj' : j ≠ 0 := fun h0 => by subst h0; omega
      obtain ⟨j', rfl⟩ := Nat.exists_eq_succ_of_ne_zero hj'
      have hmi1 : mi + 1 < colors.length := by omega
      have hmi0 : mi < colors.length := by omega
      rw [substring_spans_go_cons_some hmi (List.getElem?_eq_getElem hmi0)
          (List.getElem?_eq_getElem hmi1),
        ih (mi + 1) (some (mkParams colors[mi] colors[mi + 1]))
          (fun j hj => by have := hg (j + 1) (by simpa using Nat.succ_lt_succ hj); omega)
          ⟨j', by simpa using Nat.lt_of_succ_lt_succ (by simpa using hj), by omega⟩]
      rfl

/-! ## Lemmas about channel interpolation -/

lemma blend_channel_zero (a d : Int) (L : Nat) (hL : 1 ≤ L) :
    blend_channel a d 0 L = a := by
  have hLne : ((L : Int)) ≠ 0 := by exact_mod_cast Nat.one_le_iff_ne_zero.mp hL
  simp only [blend_channel, Nat.cast_zero, mul_zero, add_zero]
  exact Int.mul_tdiv_cancel a hLne

lemma channel_zero (a b : Nat) (L : Nat) (hL : 1 ≤ L) :
    channel a b 0 L = a :=
  blend_channel_zero _ _ L hL

lemma channel_eq_floor (a b i L : Nat) (hi : i ≤ L) (hL : 0 < L) :
    channel a b i L = ⌊(a : ℚ) + ((b : ℚ) - (a : ℚ)) * ((i : ℚ) / (L : ℚ))⌋ := by
  have hLQ : ((L : ℚ)) ≠ 0 := by positivity
  set p : Int := (a : Int) * (L : Int) + ((b : Int) - (a : Int)) * (i : Int) with hp
  have hpnn : 0 ≤ p := by
    have h1 : (0 : Int) ≤ (a : Int) * ((L : Int) - (i : Int)) :=
      mul_nonneg (by positivity) (by omega)
    have h2 : (0 : Int) ≤ (b : Int) * (i : Int) := by positivity
    have hsplit : p = (a : Int) * ((L : Int) - (i : Int)) + (b : Int) * (i : Int) := by
      rw [hp]; ring
    rw [hsplit]
    exact add_nonneg h1 h2
  have hrhs : (a : ℚ) + ((b : ℚ) - (a : ℚ)) * ((i : ℚ) / (L : ℚ)) =
      ((p : ℚ)) / ((L : Nat) : ℚ) := by
    rw [hp]
    push_cast
    field_simp
  rw [hrhs, Rat.floor_intCast_div_natCast]
  simp only [channel, blend_channel]
  exact Int.tdiv_eq_ediv hpnn (by positivity)

lemma channel_last_bound (a b L : Nat) (hL : 1 ≤ L) :
    |channel a b (L - 1) L - (b : Int)| ≤ ⌈|(b : ℚ) - (a : ℚ)| / (L : ℚ)⌉ := by
  set v : ℚ := (a : ℚ) + ((b : ℚ) - (a : ℚ)) * (((L - 1 : Nat) : ℚ) / (L : ℚ)) with hv
  have hfloor : channel a b (L - 1) L = ⌊v⌋ :=
    channel_eq_floor a b (L - 1) L (by omega) (by omega)
  set c : Int := ⌈|(b : ℚ) - (a : ℚ)| / (L : ℚ)⌉ with hc
  have hLQ : (0 : ℚ) < (L : ℚ) := by exact_mod_cast hL
  have hvb : v - (b : ℚ) = ((a : ℚ) - (b : ℚ)) / (L : ℚ) := by
    rw [hv, Nat.cast_sub hL]
    field_simp
    ring
  have habs : |v - (b : ℚ)| = |(b : ℚ) - (a : ℚ)| / (L : ℚ) := by
    rw [hvb, abs_div, abs_sub_comm, abs_of_pos hLQ]
  have hle : |v - (b : ℚ)| ≤ (c : ℚ) := by
    rw [habs, hc]
    exact Int.le_ceil _
  obtain ⟨hlo, hhi⟩ := abs_le.mp hle
  have hupper : ⌊v⌋ ≤ (b : Int) + c := by
    have : v ≤ (((b : Int) + c : Int) : ℚ) := by push_cast; linarith
    calc ⌊v⌋ ≤ ⌊(((b : Int) + c : Int) : ℚ)⌋ := Int.floor_le_floor this
      _ = (b : Int) + c := Int.floor_intCast _
  have hlower : (b : Int) - c ≤ ⌊v⌋ := by
    apply Int.le_floor.mpr
    push_cast
    linarith
  rw [hfloor]
  exact abs_le.mpr ⟨by omega, by omega⟩

/-! ## Lemmas about construction -/

lemma gradient_init_core_ok [DecidableEq σ] {length hues : Nat} {colors : List Color}
    {base : σ} {g : Gradient σ}
    (h : gradient_init_core length hues colors base = .ok g) :
    g.length = length ∧ g.hues = hues ∧ g.colors = colors ∧ g.style = base ∧
      1 < colors.length ∧ colors.length < length ∧ 2 ≤ hues ∧
      ∃ pre, substring_spans colors hues base (substring_indexes length hues) = some pre ∧
        simplify_spans pre = some g.spans := by
  by_cases h1 : colors.length > 1
  · rw [gradient_init_core, if_pos h1] at h
    by_cases h2 : colors.length < length
    · rw [if_pos h2] at h
      by_cases h3 : hues - 1 = 0
      · rw [if_pos h3] at h; simp at h
      · rw [if_neg h3] at h
        split at h
        · simp at h
        · rename_i pre hpre
          split at h
          · simp at h
          · rename_i simplified hsim
            simp only [Except.ok.injEq] at h
            subst h
            exact ⟨rfl, rfl, rfl, rfl, h1, h2, by omega, pre, hpre, hsim⟩
    · rw [if_neg h2] at h; simp at h
  · rw [gradient_init_core, if_neg h1] at h; simp at h

lemma gradient_init_ok_core [DecidableEq σ] {length hues0 : Nat}
    {colorsArg : Option (List Color)} {rainbow : Bool} {base : σ}
    {palette : List Color} {g : Gradient σ}
    (h : gradient_init length colorsArg rainbow hues0 base palette = .ok g) :
    ∃ colors,
      gradient_init_core length (if rainbow then 10 else hues0) colors base = .ok g := by
  unfold gradient_init at h
  cases colorsArg with
  | none => exact ⟨_, h⟩
  | some cs =>
    cases cs with
    | nil => simp at h
    | cons a t => exact ⟨_, h⟩

/-! ## Claim theorems -/

/-- Claim C1: for every valid `Gradient` (construction succeeded), the
compressed span list assigned to `self._spans` — `simplify_spans` applied to
the per-character spans — tiles `[0, N)` contiguously with no gaps or
overlaps, and no two adjacent compressed spans have equal style. -/
theorem gradient_spans_tile_and_maximal [DecidableEq σ]
    (length hues0 : Nat) (colorsArg : Option (List Color)) (rainbow : Bool)
    (base : σ) (palette : List Color) (g : Gradient σ)
    (h : gradient_init length colorsArg rainbow hues0 base palette = .ok g) :
    tilesB 0 (g.length : Int) g.spans = true ∧ adjacentDistinct g.spans = true := by
  obtain ⟨colors, hcore⟩ := gradient_init_ok_core h
  obtain ⟨hlen, _, _, _, _, _, hh, pre, hpre, hsim⟩ := gradient_init_core_ok hcore
  obtain ⟨hstarts, hunits⟩ :=
    substring_spans_go_starts colors _ base _ 0 none pre hpre
  rw [substring_indexes, array_split_flatten _ _ (by omega)] at hstarts
  have htile : tilesB (((0 : Nat)) : Int) (((0 : Nat) : Int) + (length : Int)) pre = true :=
    tilesB_of_starts_units pre 0 length hunits (by rw [hstarts, List.range_eq_range'])
  simp only [Nat.cast_zero, zero_add] at htile
  match pre, hsim, htile with
  | s :: rest, hsim, htile =>
    simp only [simplify_spans, Option.some.injEq] at hsim
    subst hlen
    constructor
    · rw [← hsim]
      exact simplifyAux_tiles rest s 0 _ htile
    · rw [← hsim]
      exact simplifyAux_adjacentDistinct rest s

/-- Witness for C1 at a concrete valid construction. -/
theorem gradient_spans_tile_and_maximal_witness :
    gradient_init 4 (some [⟨255, 0, 0⟩, ⟨0, 0, 255⟩, ⟨0, 255, 0⟩]) false 3 () [] =
      Except.ok (⟨4, 3, [⟨255, 0, 0⟩, ⟨0, 0, 255⟩, ⟨0, 255, 0⟩], (),
        [⟨0, 1, ⟨"#FF0000", ()⟩⟩, ⟨1, 2, ⟨"#7F007F", ()⟩⟩,
         ⟨2, 3, ⟨"#0000FF", ()⟩⟩, ⟨3, 4, ⟨"#007F7F", ()⟩⟩]⟩ : Gradient Unit) ∧
    (tilesB 0 (4 : Int)
        ([⟨0, 1, ⟨"#FF0000", ()⟩⟩, ⟨1, 2, ⟨"#7F007F", ()⟩⟩,
          ⟨2, 3, ⟨"#0000FF", ()⟩⟩, ⟨3, 4, ⟨"#007F7F", ()⟩⟩] :
            List (Span (SpanStyle Unit))) = true ∧
      adjacentDistinct
        ([⟨0, 1, ⟨"#FF0000", ()⟩⟩, ⟨1, 2, ⟨"#7F007F", ()⟩⟩,
          ⟨2, 3, ⟨"#0000FF", ()⟩⟩, ⟨3, 4, ⟨"#007F7F", ()⟩⟩] :
            List (Span (SpanStyle Unit))) = true) :=
  ⟨by decide,
    gradient_spans_tile_and_maximal 4 3 (some [⟨255, 0, 0⟩, ⟨0, 0, 255⟩, ⟨0, 255, 0⟩])
      false () []
      (⟨4, 3, [⟨255, 0, 0⟩, ⟨0, 0, 255⟩, ⟨0, 255, 0⟩], (),
        [⟨0, 1, ⟨"#FF0000", ()⟩⟩, ⟨1, 2, ⟨"#7F007F", ()⟩⟩,
         ⟨2, 3, ⟨"#0000FF", ()⟩⟩, ⟨3, 4, ⟨"#007F7F", ()⟩⟩]⟩ : Gradient Unit)
      (by decide)⟩

/-- Witness for C4: a concrete two-span list with distinct adjacent styles
is a fixed point of the compressor. -/
theorem simplify_spans_idempotent_witness :
    simplify_spans ([⟨0, 1, 0⟩, ⟨1, 2, 1⟩] : List (Span Nat)) =
        some [⟨0, 1, 0⟩, ⟨1, 2, 1⟩] ∧
    (simplify_spans ([⟨0, 1, 0⟩, ⟨1, 2, 1⟩] : List (Span Nat)) =
        some [⟨0, 1, 0⟩, ⟨1, 2, 1⟩] ∧
      (adjacentDistinct ([⟨0, 1, 0⟩, ⟨1, 2, 1⟩] : List (Span Nat)) = true →
        ([⟨0, 1, 0⟩, ⟨1, 2, 1⟩] : List (Span Nat)) = [⟨0, 1, 0⟩, ⟨1, 2, 1⟩])) :=
  ⟨by decide, simplify_spans_idempotent [⟨0, 1, 0⟩, ⟨1, 2, 1⟩] [⟨0, 1, 0⟩, ⟨1, 2, 1⟩]
    (by decide)⟩

/-- Claim C2: within one chunk of length `L` with color pair `(c1, c2)` and
base style `s`, the `i`-th character's span (`0 ≤ i < L`) carries the color
whose channels are `⌊c1.ch + (c2.ch - c1.ch) * (i / L)⌋`, each formatted as
two hex digits, composed with `s`; and the character at local index 0
resolves to exactly `c1`'s RGB channels. -/
theorem chunk_interpolation_floor (c1 c2 : Color) (base : σ) (chunk : List Nat)
    (i : Nat) (hi : i < chunk.length) :
    (chunk_spans (mkParams c1 c2) base chunk).getD i ⟨0, 0, ⟨"", base⟩⟩ =
      ⟨(chunk.getD i 0 : Int), (chunk.getD i 0 : Int) + 1,
        ⟨"#" ++
            format02X ⌊(c1.r : ℚ) + ((c2.r : ℚ) - (c1.r : ℚ)) *
              ((i : ℚ) / (chunk.length : ℚ))⌋ ++
            format02X ⌊(c1.g : ℚ) + ((c2.g : ℚ) - (c1.g : ℚ)) *
              ((i : ℚ) / (chunk.length : ℚ))⌋ ++
            format02X ⌊(c1.b : ℚ) + ((c2.b : ℚ) - (c1.b : ℚ)) *
              ((i : ℚ) / (chunk.length : ℚ))⌋,
          base⟩⟩ ∧
    ((chunk_spans (mkParams c1 c2) base chunk).getD 0 ⟨0, 0, ⟨"", base⟩⟩).style =
      ⟨hexOfColor c1, base⟩ := by
  have hL : 0 < chunk.length := by omega
  have hgetD : ∀ j, j < chunk.length →
      (chunk_spans (mkParams c1 c2) base chunk).getD j ⟨0, 0, ⟨"", base⟩⟩ =
        ⟨(chunk.getD j 0 : Int), (chunk.getD j 0 : Int) + 1,
          ⟨hex_color (mkParams c1 c2) chunk.length j, base⟩⟩ := by
    intro j hj
    rw [List.getD_eq_getElem _ _ (by simpa [chunk_spans] using hj)]
    simp [chunk_spans]
  constructor
  · rw [hgetD i hi]
    have hhex : hex_color (mkParams c1 c2) chunk.length i =
        "#" ++ format02X (channel c1.r c2.r i chunk.length)
            ++ format02X (channel c1.g c2.g i chunk.length)
            ++ format02X (channel c1.b c2.b i chunk.length) := rfl
    rw [hhex, channel_eq_floor _ _ _ _ (le_of_lt hi) hL,
      channel_eq_floor _ _ _ _ (le_of_lt hi) hL,
      channel_eq_floor _ _ _ _ (le_of_lt hi) hL]
  · rw [hgetD 0 hL]
    have hhex0 : hex_color (mkParams c1 c2) chunk.length 0 = hexOfColor c1 := by
      show "#" ++ format02X (channel c1.r c2.r 0 chunk.length)
          ++ format02X (channel c1.g c2.g 0 chunk.length)
          ++ format02X (channel c1.b c2.b 0 chunk.length) = _
      rw [channel_zero _ _ _ hL, channel_zero _ _ _ hL, channel_zero _ _ _ hL]
      rfl
    rw [hhex0]

/-- Witness for C2 at chunk `[5, 6, 7]`, index 1, red → blue. -/
theorem chunk_interpolation_floor_witness :
    (1 : Nat) < ([5, 6, 7] : List Nat).length ∧
    ((chunk_spans (mkParams ⟨255, 0, 0⟩ ⟨0, 0, 255⟩) () [5, 6, 7]).getD 1 ⟨0, 0, ⟨"", ()⟩⟩ =
      ⟨(([5, 6, 7] : List Nat).getD 1 0 : Int), (([5, 6, 7] : List Nat).getD 1 0 : Int) + 1,
        ⟨"#" ++
            format02X ⌊((255 : Nat) : ℚ) + (((0 : Nat) : ℚ) - ((255 : Nat) : ℚ)) *
              (((1 : Nat) : ℚ) / (([5, 6, 7] : List Nat).length : ℚ))⌋ ++
            format02X ⌊((0 : Nat) : ℚ) + (((0 : Nat) : ℚ) - ((0 : Nat) : ℚ)) *
              (((1 : Nat) : ℚ) / (([5, 6, 7] : List Nat).length : ℚ))⌋ ++
            format02X ⌊((0 : Nat) : ℚ) + (((255 : Nat) : ℚ) - ((0 : Nat) : ℚ)) *
              (((1 : Nat) : ℚ) / (([5, 6, 7] : List Nat).length : ℚ))⌋,
          ()⟩⟩ ∧
    ((chunk_spans (mkParams ⟨255, 0, 0⟩ ⟨0, 0, 255⟩) () [5, 6, 7]).getD 0 ⟨0, 0, ⟨"", ()⟩⟩).style =
      ⟨hexOfColor ⟨255, 0, 0⟩, ()⟩) :=
  ⟨by decide, chunk_interpolation_floor ⟨255, 0, 0⟩ ⟨0, 0, 255⟩ () [5, 6, 7] 1 (by decide)⟩

/-- Claim C3: for every `N ≥ segments ≥ 1` the partitioner splits `[0, N)`
into exactly `segments` contiguous nonempty chunks in increasing order,
sizes differing by at most one with the larger chunks first, and the span
synthesizer pairs chunk `i` with the adjacent anchor pair
`(colors[i], colors[i+1])`. -/
theorem partition_balanced (N segments : Nat) (colors : List Color) (base : σ)
    (h1 : 1 ≤ segments) (h2 : segments ≤ N) (hc : segments + 1 ≤ colors.length) :
    (array_split N segments).length = segments ∧
    (array_split N segments).flatten = List.range N ∧
    (∀ i, i < segments → 1 ≤ ((array_split N segments).getD i []).length) ∧
    (∀ i j, i ≤ j → j < segments →
      ((array_split N segments).getD j []).length ≤
          ((array_split N segments).getD i []).length ∧
        ((array_split N segments).getD i []).length ≤
          ((array_split N segments).getD j []).length + 1) ∧
    substring_spans colors (segments + 1) base (substring_indexes N (segments + 1)) =
      some (((List.range segments).map fun i =>
        pair_spans colors base i
          ((substring_indexes N (segments + 1)).getD i [])).flatten) := by
  have hidx : substring_indexes N (segments + 1) = array_split N segments := rfl
  refine ⟨array_split_length N segments, array_split_flatten N segments h1, ?_, ?_, ?_⟩
  · intro i hi
    rw [array_split_chunk N segments i hi, List.length_range']
    exact chunk_size_pos N segments i h1 h2
  · intro i j hij hj
    rw [array_split_chunk N segments i (by omega), List.length_range',
      array_split_chunk N segments j hj, List.length_range']
    refine ⟨chunk_size_antitone N segments i j hij, ?_⟩
    rcases chunk_size_le N segments i with h | h <;>
      rcases chunk_size_le N segments j with h' | h' <;> omega
  · rw [hidx, substring_spans, substring_spans_go_eval colors (segments + 1) base
      (array_split N segments) 0 none (fun j hj => by
        rw [array_split_length] at hj
        exact ⟨by omega, by omega⟩)]
    rw [array_split_length]
    congr 2
    apply List.map_congr_left
    intro j _
    rw [Nat.zero_add]

/-- Witness for C3 at `N = 5`, `segments = 2`, three anchor colors. -/
theorem partition_balanced_witness :
    ((1 : Nat) ≤ 2 ∧ (2 : Nat) ≤ 5 ∧
      (2 : Nat) + 1 ≤ ([⟨255, 0, 0⟩, ⟨0, 0, 255⟩, ⟨0, 255, 0⟩] : List Color).length) ∧
    ((array_split 5 2).length = 2 ∧
      (array_split 5 2).flatten = List.range 5 ∧
      (∀ i, i < 2 → 1 ≤ ((array_split 5 2).getD i []).length) ∧
      (∀ i j, i ≤ j → j < 2 →
        ((array_split 5 2).getD j []).length ≤ ((array_split 5 2).getD i []).length ∧
          ((array_split 5 2).getD i []).length ≤ ((array_split 5 2).getD j []).length + 1) ∧
      substring_spans [⟨255, 0, 0⟩, ⟨0, 0, 255⟩, ⟨0, 255, 0⟩] (2 + 1) ()
          (substring_indexes 5 (2 + 1)) =
        some (((List.range 2).map fun i =>
          pair_spans [⟨255, 0, 0⟩, ⟨0, 0, 255⟩, ⟨0, 255, 0⟩] () i
            ((substring_indexes 5 (2 + 1)).getD i [])).flatten)) :=
  ⟨⟨by decide, by decide, by decide⟩,
    partition_balanced 5 2 [⟨255, 0, 0⟩, ⟨0, 0, 255⟩, ⟨0, 255, 0⟩] ()
      (by decide) (by decide) (by decide)⟩

lemma chunk_spans_getD (p : Params) (base : σ) (chunk : List Nat) (j : Nat)
    (hj : j < chunk.length) (d : Span (SpanStyle σ)) :
    (chunk_spans p base chunk).getD j d =
      ⟨(chunk.getD j 0 : Int), (chunk.getD j 0 : Int) + 1,
        ⟨hex_color p chunk.length j, base⟩⟩ := by
  rw [List.getD_eq_getElem _ _ (by simpa [chunk_spans] using hj)]
  simp [chunk_spans]

/-- Claim C6: for every constructed `Gradient`, the segment count is
`hues - 1` and span synthesis consumes exactly the first `hues` anchor
colors, for every way of supplying colors (explicit list, default palette,
rainbow): the effective hue count is `hues0` (10 when `rainbow`),
`hues ≤ len(colors)`, synthesis is unchanged by truncating the color list
to its first `hues` entries, and fails given only the first `hues - 1`. -/
theorem anchors_used_eq_hues [DecidableEq σ]
    (length hues0 : Nat) (colorsArg : Option (List Color)) (rainbow : Bool)
    (base : σ) (palette : List Color) (g : Gradient σ)
    (h : gradient_init length colorsArg rainbow hues0 base palette = .ok g) :
    g.hues = (if rainbow then 10 else hues0) ∧
    (substring_indexes g.length g.hues).length = g.hues - 1 ∧
    g.hues ≤ g.colors.length ∧
    substring_spans (g.colors.take g.hues) g.hues base
        (substring_indexes g.length g.hues) =
      substring_spans g.colors g.hues base (substring_indexes g.length g.hues) ∧
    substring_spans (g.colors.take (g.hues - 1)) g.hues base
        (substring_indexes g.length g.hues) = none := by
  obtain ⟨colors, hcore⟩ := gradient_init_ok_core h
  obtain ⟨hlen, hhues, hcolors, _, _, _, hh, pre, hpre, _⟩ := gradient_init_core_ok hcore
  have hchunks : (substring_indexes length (if rainbow then 10 else hues0)).length =
      (if rainbow then 10 else hues0) - 1 := by
    rw [substring_indexes, array_split_length]
  subst hlen
  subst hcolors
  rw [hhues]
  set hues := if rainbow then 10 else hues0 with hdef
  have hle : hues ≤ g.colors.length := by
    have := substring_spans_go_some_lt g.colors hues base
      (substring_indexes g.length hues) 0 none pre
      (fun j hj => by rw [hchunks] at hj; omega) hpre
      (by
        intro hnil
        rw [hnil] at hchunks
        simp at hchunks
        omega)
    rw [hchunks] at this
    omega
  refine ⟨rfl, hchunks, hle, ?_, ?_⟩
  · exact substring_spans_go_take g.colors hues base _ 0 none
      (fun j hj => by rw [hchunks] at hj; omega)
  · apply substring_spans_go_short (g.colors.take (hues - 1)) hues base _ 0 none
      (fun j hj => by rw [hchunks] at hj; omega)
    refine ⟨hues - 2, by rw [hchunks]; omega, ?_⟩
    rw [List.length_take]
    omega

/-- Witness for C6 at a concrete valid construction. -/
theorem anchors_used_eq_hues_witness :
    gradient_init 4 (some [⟨255, 0, 0⟩, ⟨0, 0, 255⟩, ⟨0, 255, 0⟩]) false 3 () [] =
      Except.ok (⟨4, 3, [⟨255, 0, 0⟩, ⟨0, 0, 255⟩, ⟨0, 255, 0⟩], (),
        [⟨0, 1, ⟨"#FF0000", ()⟩⟩, ⟨1, 2, ⟨"#7F007F", ()⟩⟩,
         ⟨2, 3, ⟨"#0000FF", ()⟩⟩, ⟨3, 4, ⟨"#007F7F", ()⟩⟩]⟩ : Gradient Unit) ∧
    ((⟨4, 3, [⟨255, 0, 0⟩, ⟨0, 0, 255⟩, ⟨0, 255, 0⟩], (),
        [⟨0, 1, ⟨"#FF0000", ()⟩⟩, ⟨1, 2, ⟨"#7F007F", ()⟩⟩,
         ⟨2, 3, ⟨"#0000FF", ()⟩⟩, ⟨3, 4, ⟨"#007F7F", ()⟩⟩]⟩ : Gradient Unit).hues =
          (if false then 10 else 3) ∧
      (substring_indexes 4 3).length = 3 - 1 ∧
      (3 : Nat) ≤ ([⟨255, 0, 0⟩, ⟨0, 0, 255⟩, ⟨0, 255, 0⟩] : List Color).length ∧
      substring_spans (([⟨255, 0, 0⟩, ⟨0, 0, 255⟩, ⟨0, 255, 0⟩] : List Color).take 3) 3 ()
          (substring_indexes 4 3) =
        substring_spans [⟨255, 0, 0⟩, ⟨0, 0, 255⟩, ⟨0, 255, 0⟩] 3 () (substring_indexes 4 3) ∧
      substring_spans (([⟨255, 0, 0⟩, ⟨0, 0, 255⟩, ⟨0, 255, 0⟩] : List Color).take (3 - 1)) 3 ()
          (substring_indexes 4 3) = none) :=
  ⟨by decide,
    anchors_used_eq_hues 4 3 (some [⟨255, 0, 0⟩, ⟨0, 0, 255⟩, ⟨0, 255, 0⟩]) false () []
      (⟨4, 3, [⟨255, 0, 0⟩, ⟨0, 0, 255⟩, ⟨0, 255, 0⟩], (),
        [⟨0, 1, ⟨"#FF0000", ()⟩⟩, ⟨1, 2, ⟨"#7F007F", ()⟩⟩,
         ⟨2, 3, ⟨"#0000FF", ()⟩⟩, ⟨3, 4, ⟨"#007F7F", ()⟩⟩]⟩ : Gradient Unit)
      (by decide)⟩

/-- Claim C5 (code bug): one color and colors ≥ text length each fail their
`assert` before any span computation — but text that sanitizes to the empty
string raises no dedicated empty-text error.  rich's `Text.__init__`
assigns `self._text` directly, so the overridden `text` setter (with its
`ValueError("Text cannot be empty.")`) is never invoked during
construction; an empty text instead trips the same
fewer-colors-than-characters assertion as the colors ≥ length case. -/
theorem validation_errors_behavior :
    gradient_init 5 (some [⟨1, 2, 3⟩]) false 3 () [] =
      (.error .tooFewColors : Except InitError (Gradient Unit)) ∧
    gradient_init 2 (some [⟨1, 2, 3⟩, ⟨4, 5, 6⟩]) false 3 () [] =
      (.error .colorsNotFewerThanText : Except InitError (Gradient Unit)) ∧
    gradient_init 0 (some [⟨1, 2, 3⟩, ⟨4, 5, 6⟩]) false 3 () [] =
      (.error .colorsNotFewerThanText : Except InitError (Gradient Unit)) :=
  ⟨by decide, by decide, by decide⟩

/-- Claim C7 counterexample: for the 2-color gradient (255,0,0) → (0,0,0)
over text length 3, the last character's red channel is 85 — not within
1 unit of the end color's red channel 0. -/
theorem endpoint_within_one_counterexample :
    substring_spans [⟨255, 0, 0⟩, ⟨0, 0, 0⟩] 2 () (substring_indexes 3 2) =
      some [⟨0, 1, ⟨"#FF0000", ()⟩⟩, ⟨1, 2, ⟨"#AA0000", ()⟩⟩, ⟨2, 3, ⟨"#550000", ()⟩⟩] ∧
    channel 255 0 2 3 = 85 ∧ ¬ (|channel 255 0 2 3 - (0 : Int)| ≤ 1) :=
  ⟨by decide, by decide, by decide⟩

lemma substring_indexes_two (N : Nat) :
    substring_indexes N 2 = [List.range N] := by
  have h1 : chunk_size N 1 0 = N := by simp [chunk_size, Nat.mod_one]
  have h2 : chunk_start N 1 0 = 0 := by simp [chunk_start]
  have hr1 : List.range 1 = [0] := by decide
  simp only [substring_indexes, array_split, show (2 : Nat) - 1 = 1 from rfl,
    hr1, List.map_cons, List.map_nil]
  rw [h1, h2]
  simp

/-- Claim C7 amended: for a 2-color gradient over text length `N ≥ 3`,
index 0 resolves to exactly `color_start`'s channels, and the last
character's channels equal `⌊c1.ch + (c2.ch - c1.ch) * ((N-1)/N)⌋`, which
is within `⌈|c2.ch - c1.ch| / N⌉` of `color_end`'s channel — not within 1
in general (within 1 only when the channel difference is at most `N`). -/
theorem endpoint_deviation_bound (c1 c2 : Color) (base : σ) (N : Nat) (hN : 3 ≤ N) :
    ∃ pre, substring_spans [c1, c2] 2 base (substring_indexes N 2) = some pre ∧
      pre.length = N ∧
      (pre.getD 0 ⟨0, 0, ⟨"", base⟩⟩).style = ⟨hexOfColor c1, base⟩ ∧
      (pre.getD (N - 1) ⟨0, 0, ⟨"", base⟩⟩).style =
        ⟨"#" ++ format02X (channel c1.r c2.r (N - 1) N)
            ++ format02X (channel c1.g c2.g (N - 1) N)
            ++ format02X (channel c1.b c2.b (N - 1) N), base⟩ ∧
      |channel c1.r c2.r (N - 1) N - (c2.r : Int)| ≤ ⌈|(c2.r : ℚ) - (c1.r : ℚ)| / (N : ℚ)⌉ ∧
      |channel c1.g c2.g (N - 1) N - (c2.g : Int)| ≤ ⌈|(c2.g : ℚ) - (c1.g : ℚ)| / (N : ℚ)⌉ ∧
      |channel c1.b c2.b (N - 1) N - (c2.b : Int)| ≤ ⌈|(c2.b : ℚ) - (c1.b : ℚ)| / (N : ℚ)⌉ := by
  have hNpos : 0 < N := by omega
  have hspans : substring_spans [c1, c2] 2 base (substring_indexes N 2) =
      some (chunk_spans (mkParams c1 c2) base (List.range N)) := by
    rw [substring_indexes_two]
    have := substring_spans_go_eval [c1, c2] 2 base [List.range N] 0 none
      (fun j hj => by
        simp only [List.length_cons, List.length_nil] at hj
        exact ⟨by omega, by simp; omega⟩)
    rw [substring_spans, this]
    have hr1 : List.range 1 = [0] := by decide
    simp [pair_spans, hr1]
  refine ⟨chunk_spans (mkParams c1 c2) base (List.range N), hspans, ?_, ?_, ?_, ?_, ?_, ?_⟩
  · simp [chunk_spans]
  · rw [chunk_spans_getD _ _ _ 0 (by simpa using hNpos) _]
    have hhex0 : hex_color (mkParams c1 c2) (List.range N).length 0 = hexOfColor c1 := by
      show "#" ++ format02X (channel c1.r c2.r 0 (List.range N).length)
          ++ format02X (channel c1.g c2.g 0 (List.range N).length)
          ++ format02X (channel c1.b c2.b 0 (List.range N).length) = _
      rw [channel_zero _ _ _ (by simpa using hNpos),
        channel_zero _ _ _ (by simpa using hNpos),
        channel_zero _ _ _ (by simpa using hNpos)]
      rfl
    rw [hhex0]
  · rw [chunk_spans_getD _ _ _ (N - 1) (by simp; omega) _]
    simp only [List.length_range]
    rfl
  · exact channel_last_bound c1.r c2.r N (by omega)
  · exact channel_last_bound c1.g c2.g N (by omega)
  · exact channel_last_bound c1.b c2.b N (by omega)

/-- Witness for C7's amended bound at `N = 4`, red → (10, 20, 30). -/
theorem endpoint_deviation_bound_witness :
    (3 : Nat) ≤ 4 ∧
    (∃ pre, substring_spans [⟨255, 0, 0⟩, ⟨10, 20, 30⟩] 2 () (substring_indexes 4 2) =
        some pre ∧
      pre.length = 4 ∧
      (pre.getD 0 ⟨0, 0, ⟨"", ()⟩⟩).style = ⟨hexOfColor ⟨255, 0, 0⟩, ()⟩ ∧
      (pre.getD (4 - 1) ⟨0, 0, ⟨"", ()⟩⟩).style =
        ⟨"#" ++ format02X (channel 255 10 (4 - 1) 4)
            ++ format02X (channel 0 20 (4 - 1) 4)
            ++ format02X (channel 0 30 (4 - 1) 4), ()⟩ ∧
      |channel 255 10 (4 - 1) 4 - ((10 : Nat) : Int)| ≤
        ⌈|((10 : Nat) : ℚ) - ((255 : Nat) : ℚ)| / ((4 : Nat) : ℚ)⌉ ∧
      |channel 0 20 (4 - 1) 4 - ((20 : Nat) : Int)| ≤
        ⌈|((20 : Nat) : ℚ) - ((0 : Nat) : ℚ)| / ((4 : Nat) : ℚ)⌉ ∧
      |channel 0 30 (4 - 1) 4 - ((30 : Nat) : Int)| ≤
        ⌈|((30 : Nat) : ℚ) - ((0 : Nat) : ℚ)| / ((4 : Nat) : ℚ)⌉) :=
  ⟨by decide, endpoint_deviation_bound ⟨255, 0, 0⟩ ⟨10, 20, 30⟩ () 4 (by decide)⟩

/-- Claim C8 counterexample: constructing with text "AB" (sanitized length
2) and colors `[red, blue]` does not succeed — the
fewer-colors-than-characters assertion fails. -/
theorem two_char_two_color_counterexample :
    gradient_init 2 (some [⟨255, 0, 0⟩, ⟨0, 0, 255⟩]) false 3 () [] =
      (.error .colorsNotFewerThanText : Except InitError (Gradient Unit)) := by
  decide

/-- Claim C8 amended: text "AB" with colors `[red, blue]` raises the
fewer-colors-than-characters assertion for every hue count (including
rainbow), so no spans are computed; and in general a chunk of length 1
gives its single character `t = 0/1 = 0`, resolving to exactly the chunk's
start color. -/
theorem two_char_two_color_amended (σ : Type) [DecidableEq σ] (hues0 : Nat)
    (rainbow : Bool) (base : σ) (palette : List Color) :
    gradient_init 2 (some [⟨255, 0, 0⟩, ⟨0, 0, 255⟩]) rainbow hues0 base palette =
      (.error .colorsNotFewerThanText : Except InitError (Gradient σ)) ∧
    ∀ (c1 c2 : Color) (k : Nat),
      chunk_spans (mkParams c1 c2) base [k] =
        [⟨(k : Int), (k : Int) + 1, ⟨hexOfColor c1, base⟩⟩] := by
  constructor
  · simp [gradient_init, gradient_init_core]
  · intro c1 c2 k
    have hhex0 : hex_color (mkParams c1 c2) 1 0 = hexOfColor c1 := by
      show "#" ++ format02X (channel c1.r c2.r 0 1)
          ++ format02X (channel c1.g c2.g 0 1)
          ++ format02X (channel c1.b c2.b 0 1) = _
      rw [channel_zero _ _ _ (by omega), channel_zero _ _ _ (by omega),
        channel_zero _ _ _ (by omega)]
      rfl
    have hr1 : List.range 1 = [0] := by decide
    simp [chunk_spans, hhex0, hr1]

/-- Claim C10 counterexample: a `GradientSubstring` with an ordinary style
string and equal start and end colors (length 2, `start_index = 0`)
compresses to the single span `[0, 2)` — a perfectly non-overlapping
tiling of its range, contradicting the claim that the compressed output is
never one. -/
theorem substring_not_tiling_counterexample :
    gradient_substring_spans .otherString 0 2 ⟨10, 20, 30⟩ ⟨10, 20, 30⟩ () =
      some [⟨0, 2, ⟨"#0A141E", ()⟩⟩] ∧
    tilesB 0 2 [(⟨0, 2, ⟨"#0A141E", ()⟩⟩ : Span (SpanStyle Unit))] = true :=
  ⟨by decide, by decide⟩

lemma hex_color_zero (c1 c2 : Color) (L : Nat) (hL : 1 ≤ L) :
    hex_color (mkParams c1 c2) L 0 = hexOfColor c1 := by
  show "#" ++ format02X (channel c1.r c2.r 0 L) ++ format02X (channel c1.g c2.g 0 L)
      ++ format02X (channel c1.b c2.b 0 L) = _
  rw [channel_zero _ _ _ hL, channel_zero _ _ _ hL, channel_zero _ _ _ hL]
  rfl

lemma hexOfColor_ne_empty (c : Color) : hexOfColor c ≠ "" := by
  intro h
  have hlen := congrArg String.length h
  rw [hexOfColor, String.length_append, String.length_append,
    String.length_append] at hlen
  have h1 : ("#" : String).length = 1 := rfl
  have h0 : ("" : String).length = 0 := rfl
  omega

/-- Claim C10 amended: the span list handed to compression always begins
with `Span(0, L-1, end_style)` — its start is 0 regardless of
`start_index` — where `end_style` carries the end color's hex token over
the base style in every branch of the style handling except `"none"`,
in which it stays the colorless `Style.null()`; it is followed by the `L`
per-character unit spans at `[start_index + i, start_index + i + 1)`; at
`start_index = 0` with `L ≥ 2` the first two spans overlap (index 0 lies
in both); and whenever the end style differs from the first unit span's
style — always in the `"none"` branch, and otherwise whenever the two
colors have distinct hex tokens — the compressed output tiles no interval
at all.  When every style coincides (equal colors, non-`"none"` style) the
spans instead merge into one span and the output is a tiling, which is why
the claim's final clause fails in general. -/
theorem substring_initial_spans_structure [DecidableEq σ] (arg : StyleArg)
    (start_index : Int) (L : Nat) (c1 c2 : Color) (base : σ) (hL : 2 ≤ L) :
    (substring_initial_spans arg start_index L c1 c2 base).getD 0 ⟨9, 9, ⟨"", base⟩⟩ =
      ⟨0, (L : Int) - 1, substring_end_style arg c2 base⟩ ∧
    (arg ≠ .noneLiteral → substring_end_style arg c2 base = ⟨hexOfColor c2, base⟩) ∧
    substring_end_style .noneLiteral c2 base = ⟨"", base⟩ ∧
    (substring_initial_spans arg start_index L c1 c2 base).length = L + 1 ∧
    (∀ i, i < L →
      (substring_initial_spans arg start_index L c1 c2 base).getD (i + 1)
          ⟨9, 9, ⟨"", base⟩⟩ =
        ⟨start_index + (i : Int), start_index + (i : Int) + 1,
          ⟨hex_color (mkParams c1 c2) L i, base⟩⟩) ∧
    (0 < (L : Int) - 1 ∧
      (substring_initial_spans arg 0 L c1 c2 base).getD 1 ⟨9, 9, ⟨"", base⟩⟩ =
        ⟨0, 0 + 1, ⟨hexOfColor c1, base⟩⟩) ∧
    substring_end_style .noneLiteral c2 base ≠ ⟨hexOfColor c1, base⟩ ∧
    (substring_end_style arg c2 base ≠ ⟨hexOfColor c1, base⟩ →
      ∃ out, gradient_substring_spans arg 0 L c1 c2 base = some out ∧
        ∀ lo hi : Int, tilesB lo hi out = false) := by
  have hgetD : ∀ (si : Int) (i : Nat), i < L →
      (substring_initial_spans arg si L c1 c2 base).getD (i + 1) ⟨9, 9, ⟨"", base⟩⟩ =
        calculate_span si L c1 c2 base i := by
    intro si i hi
    rw [substring_initial_spans, List.getD_cons_succ,
      List.getD_eq_getElem _ _ (by simpa using hi)]
    simp
  refine ⟨rfl, ?_, rfl, by simp [substring_initial_spans],
    fun i hi => hgetD start_index i hi, ⟨by omega, ?_⟩, ?_, ?_⟩
  · intro h
    cases arg with
    | falsy => rfl
    | noneLiteral => exact absurd rfl h
    | otherString => rfl
    | styleObject => rfl
  · have h01 := hgetD 0 0 (by omega)
    rw [h01]
    show (⟨(0 : Int) + ((0 : Nat) : Int), (0 : Int) + ((0 : Nat) : Int) + 1,
      ⟨hex_color (mkParams c1 c2) L 0, base⟩⟩ : Span (SpanStyle σ)) = _
    rw [hex_color_zero c1 c2 L (by omega)]
    norm_num
  · intro hcon
    simp only [substring_end_style, SpanStyle.mk.injEq] at hcon
    exact hexOfColor_ne_empty c1 hcon.1.symm
  · intro hne
    obtain ⟨l, rfl⟩ : ∃ l, L = l + 1 := ⟨L - 1, by omega⟩
    have hl1 : 1 ≤ l := by omega
    set f := calculate_span (0 : Int) (l + 1) c1 c2 base with hf
    have hunits : (List.range (l + 1)).map f =
        f 0 :: (List.range l).map (f ∘ Nat.succ) := by
      rw [List.range_succ_eq_map, List.map_cons, List.map_map]
    have hsty0 : (f 0).style = ⟨hexOfColor c1, base⟩ := by
      rw [hf]
      show (⟨_, _, ⟨hex_color (mkParams c1 c2) (l + 1) 0, base⟩⟩ :
        Span (SpanStyle σ)).style = _
      rw [hex_color_zero c1 c2 (l + 1) (by omega)]
    refine ⟨(⟨0, ((l + 1 : Nat) : Int) - 1, substring_end_style arg c2 base⟩ :
        Span (SpanStyle σ)) ::
      simplifyAux (f 0) ((List.range l).map (f ∘ Nat.succ)), ?_, ?_⟩
    · have hne' : ¬ ((f 0).style = substring_end_style arg c2 base) := by
        intro hcon
        rw [hsty0] at hcon
        exact hne hcon.symm
      rw [gradient_substring_spans, substring_initial_spans, ← hf, hunits]
      simp only [simplify_spans, Option.some.injEq, simplifyAux]
      rw [if_neg hne']
    · intro lo hi
      obtain ⟨h0, t, hout, hstart, _, _⟩ :=
        simplifyAux_head ((List.range l).map (f ∘ Nat.succ)) (f 0)
      rw [hout]
      have hzero : h0.start = 0 := by
        rw [hstart, hf]
        show (0 : Int) + ((0 : Nat) : Int) = 0
        simp
      by_contra hcon
      rw [Bool.not_eq_false] at hcon
      simp only [tilesB, Bool.and_eq_true, beq_iff_eq, decide_eq_true_eq] at hcon
      obtain ⟨_, ⟨⟨h2, _⟩, _⟩⟩ := hcon
      rw [hzero] at h2
      have hcast : ((l + 1 : Nat) : Int) = (l : Int) + 1 := by push_cast; ring
      rw [hcast] at h2
      have : (1 : Int) ≤ (l : Int) := by exact_mod_cast hl1
      omega

/-- Witness for C10's amended structure at a string style, `start_index = 7`,
`L = 3`, red → blue. -/
theorem substring_initial_spans_structure_witness :
    (2 : Nat) ≤ 3 ∧
    ((substring_initial_spans .otherString 7 3 ⟨255, 0, 0⟩ ⟨0, 0, 255⟩ ()).getD 0
          ⟨9, 9, ⟨"", ()⟩⟩ =
        ⟨0, ((3 : Nat) : Int) - 1, substring_end_style .otherString ⟨0, 0, 255⟩ ()⟩ ∧
      (StyleArg.otherString ≠ StyleArg.noneLiteral →
        substring_end_style .otherString ⟨0, 0, 255⟩ () =
          ⟨hexOfColor ⟨0, 0, 255⟩, ()⟩) ∧
      substring_end_style .noneLiteral (⟨0, 0, 255⟩ : Color) (() : Unit) = ⟨"", ()⟩ ∧
      (substring_initial_spans .otherString 7 3 ⟨255, 0, 0⟩ ⟨0, 0, 255⟩ ()).length =
          3 + 1 ∧
      (∀ i, i < 3 →
        (substring_initial_spans .otherString 7 3 ⟨255, 0, 0⟩ ⟨0, 0, 255⟩ ()).getD (i + 1)
            ⟨9, 9, ⟨"", ()⟩⟩ =
          ⟨7 + (i : Int), 7 + (i : Int) + 1,
            ⟨hex_color (mkParams ⟨255, 0, 0⟩ ⟨0, 0, 255⟩) 3 i, ()⟩⟩) ∧
      (0 < ((3 : Nat) : Int) - 1 ∧
        (substring_initial_spans .otherString 0 3 ⟨255, 0, 0⟩ ⟨0, 0, 255⟩ ()).getD 1
            ⟨9, 9, ⟨"", ()⟩⟩ =
          ⟨0, 0 + 1, ⟨hexOfColor ⟨255, 0, 0⟩, ()⟩⟩) ∧
      substring_end_style .noneLiteral (⟨0, 0, 255⟩ : Color) (() : Unit) ≠
        ⟨hexOfColor ⟨255, 0, 0⟩, ()⟩ ∧
      (substring_end_style .otherString (⟨0, 0, 255⟩ : Color) (() : Unit) ≠
          ⟨hexOfColor ⟨255, 0, 0⟩, ()⟩ →
        ∃ out, gradient_substring_spans .otherString 0 3 ⟨255, 0, 0⟩ ⟨0, 0, 255⟩ () =
            some out ∧
          ∀ lo hi : Int, tilesB lo hi out = false)) :=
  ⟨by decide,
    substring_initial_spans_structure .otherString 7 3 ⟨255, 0, 0⟩ ⟨0, 0, 255⟩ ()
      (by decide)⟩

/-- Claim C9 counterexample: at text length 5 with hues 3 the two variants
disagree — `_gradient_spans` emits 4 spans covering `[0, 4)` only while
`_substring_spans` emits 5 spans covering `[0, 5)`. -/
theorem variants_differ_counterexample :
    gradient_spans 5 3 [⟨255, 0, 0⟩, ⟨0, 0, 255⟩, ⟨0, 255, 0⟩] () ≠
      substring_spans [⟨255, 0, 0⟩, ⟨0, 0, 255⟩, ⟨0, 255, 0⟩] 3 ()
        (substring_indexes 5 3) := by
  decide

lemma mapM_option_some {α β : Type} (l : List α) (f : α → Option β) (gl : α → β)
    (h : ∀ a ∈ l, f a = some (gl a)) : l.mapM f = some (l.map gl) := by
  induction l with
  | nil => rfl
  | cons a t ih =>
    rw [List.mapM_cons, h a (by simp), ih fun x hx => h x (by simp [hx])]
    rfl

lemma chunk_spans_range' (p : Params) (base : σ) (s m : Nat) :
    chunk_spans p base (List.range' s m) =
      (List.range m).map fun j =>
        (⟨((s + j : Nat) : Int), ((s + j : Nat) : Int) + 1,
          ⟨hex_color p m j, base⟩⟩ : Span (SpanStyle σ)) := by
  apply List.ext_getElem
  · simp [chunk_spans]
  · intro n h1 h2
    have hn : n < m := by simpa [chunk_spans] using h1
    simp only [chunk_spans, List.getElem_map, List.getElem_range, List.length_range']
    rw [List.getD_eq_getElem _ _ (by simpa using hn), List.getElem_range']
    simp

/-- Claim C9 amended: the two span-generation variants agree exactly when
`hues - 1` divides the text length (then the uniform chunks of
`_gradient_spans` coincide with the balanced chunks of
`_substring_spans`); otherwise they diverge, `_gradient_spans` covering
only `(hues-1) * (N / (hues-1))` characters. -/
theorem variants_agree_on_divisible (N hues : Nat) (colors : List Color) (base : σ)
    (hh : 2 ≤ hues) (hdvd : (hues - 1) ∣ N) (hc : hues ≤ colors.length) :
    gradient_spans N hues colors base =
      substring_spans colors hues base (substring_indexes N hues) := by
  obtain ⟨m, hm⟩ := hdvd
  set g := hues - 1 with hg
  have hgpos : 0 < g := by omega
  have hmod : N % g = 0 := by rw [hm]; exact Nat.mul_mod_right g m
  have hdivm : N / g = m := by rw [hm]; exact Nat.mul_div_cancel_left m hgpos
  have hsz : ∀ i, chunk_size N g i = m := fun i => by
    simp [chunk_size, hmod, hdivm]
  have hcs : ∀ i, chunk_start N g i = i * m := fun i => by
    simp [chunk_start, hmod, hdivm]
  have hgc : ∀ i ∈ List.range g, gradient_chunk colors base m i =
      some ((List.range m).map fun j =>
        (⟨((i * m + j : Nat) : Int), ((i * m + j : Nat) : Int) + 1,
          ⟨hex_color (mkParams (colors.getD i ⟨0, 0, 0⟩) (colors.getD (i + 1) ⟨0, 0, 0⟩))
              m j, base⟩⟩ : Span (SpanStyle σ))) := by
    intro i hi
    rw [List.mem_range] at hi
    have hi0 : i < colors.length := by omega
    have hi1 : i + 1 < colors.length := by omega
    simp only [gradient_chunk, List.getElem?_eq_getElem hi0, List.getElem?_eq_getElem hi1,
      List.getD_eq_getElem _ _ hi0, List.getD_eq_getElem _ _ hi1]
  simp only [gradient_spans]
  rw [if_neg (by omega : ¬ (hues - 1 = 0))]
  rw [show N / (hues - 1) = m from hdivm]
  rw [mapM_option_some (List.range (hues - 1)) (gradient_chunk colors base m) _
    (by rw [← hg]; exact hgc)]
  rw [substring_spans, substring_spans_go_eval colors hues base _ 0 none
    (fun j hj => by
      rw [substring_indexes, array_split_length] at hj
      exact ⟨by omega, by omega⟩)]
  simp only [Option.map_some', Option.some.injEq, substring_indexes, array_split_length]
  rw [← hg]
  congr 1
  apply List.map_congr_left
  intro i hi
  rw [List.mem_range] at hi
  have hi0 : i < colors.length := by omega
  have hi1 : i + 1 < colors.length := by omega
  rw [Nat.zero_add, pair_spans, array_split_chunk N g i hi, hcs i, hsz i,
    chunk_spans_range']

/-- Witness for C9's amended agreement at `N = 4`, `hues = 3`. -/
theorem variants_agree_on_divisible_witness :
    ((2 : Nat) ≤ 3 ∧ (3 - 1 : Nat) ∣ 4 ∧
      (3 : Nat) ≤ ([⟨255, 0, 0⟩, ⟨0, 0, 255⟩, ⟨0, 255, 0⟩] : List Color).length) ∧
    gradient_spans 4 3 [⟨255, 0, 0⟩, ⟨0, 0, 255⟩, ⟨0, 255, 0⟩] () =
      substring_spans [⟨255, 0, 0⟩, ⟨0, 0, 255⟩, ⟨0, 255, 0⟩] 3 ()
        (substring_indexes 4 3) :=
  ⟨⟨by decide, by decide, by decide⟩,
    variants_agree_on_divisible 4 3 [⟨255, 0, 0⟩, ⟨0, 0, 255⟩, ⟨0, 255, 0⟩] ()
      (by decide) (by decide) (by decide)⟩

end GradientText
